import Mathlib

/-!
Verification development for the Amalyzer tag mutation engine
(`src/main.cpp`).  Strings are modelled as lists of characters; the
byte-level UTF-8 handling of C++ `std::string` coincides with this model
on the ASCII data the engine manipulates.
-/

set_option maxHeartbeats 1000000

namespace Amalyzer

/-- A C++ `std::string`, modelled as a list of characters. -/
abbrev Str := List Char

/-- The character test used by `cleanAlbumPrefix`:
`::isalnum(c) || c == '.' || c == '#'`. -/
def isPrefixChar (c : Char) : Bool :=
  c.isAlphanum || c == '.' || c == '#'

/-- The `" | "` delimiter separating analysis-prefix segments. -/
def delim : Str := [' ', '|', ' ']

/-- `temp.find(" | ")`: index of the first occurrence of the
`" | "` delimiter in a string, `none` when absent (`std::string::npos`). -/
def findDelim : Str → Option Nat
  | [] => none
  | c :: t =>
      if delim.isPrefixOf (c :: t) then some 0
      else (findDelim t).map (· + 1)

/-- The `while (count < 3)` loop body of `cleanAlbumPrefix`: with `fuel`
remaining iterations, find the first `" | "`; stop when absent; if the text
before it passes `isPrefixChar` on every character, drop segment plus
delimiter and recurse, otherwise stop. -/
def cleanLoop : Nat → Str → Str
  | 0, s => s
  | fuel + 1, s =>
      match findDelim s with
      | none => s
      | some pos =>
          if (s.take pos).all isPrefixChar then
            cleanLoop fuel (s.drop (pos + 3))
          else s

/-- `cleanAlbumPrefix` from `src/main.cpp` (lines 1332–1357): returns `""`
for the empty string, otherwise strips up to 3 recognized
`"<token> | "` prefixes. -/
def cleanAlbumPrefix (s : Str) : Str :=
  if s = [] then [] else cleanLoop 3 s

/-- The prefix-joining loop of `writeTags` (lines 1413–1419): joins the
parts with `" | "`, with no trailing delimiter. -/
def buildPrefix : List Str → Str
  | [] => []
  | [p] => p
  | p :: ps => p ++ delim ++ buildPrefix ps

/-- Whether a string begins with a strippable segment: it contains a
`" | "` delimiter and the text before the first one passes the
`isPrefixChar` test. -/
def headStrippable (s : Str) : Bool :=
  match findDelim s with
  | none => false
  | some pos => (s.take pos).all isPrefixChar

/-! ### Basic lemmas about the codec -/

theorem isPrefixChar_ne_space {c : Char} (h : isPrefixChar c = true) : c ≠ ' ' := by
  intro he; subst he; exact absurd h (by decide)

theorem findDelim_append_delim (p rest : Str) (hp : ∀ c ∈ p, c ≠ ' ') :
    findDelim (p ++ delim ++ rest) = some p.length := by
  induction p with
  | nil => simp [findDelim, delim, List.isPrefixOf]
  | cons c t ih =>
      have hc : c ≠ ' ' := hp c (by simp)
      have ht : ∀ x ∈ t, x ≠ ' ' := fun x hx => hp x (by simp [hx])
      have heq : (c :: t) ++ delim ++ rest = c :: (t ++ delim ++ rest) := by simp
      rw [heq]
      have hpre : delim.isPrefixOf (c :: (t ++ delim ++ rest)) = false := by
        simp [delim, List.isPrefixOf]
        intro h; exact absurd h.symm hc
      show (if delim.isPrefixOf (c :: (t ++ delim ++ rest)) then some 0
            else (findDelim (t ++ delim ++ rest)).map (· + 1)) = some (c :: t).length
      rw [hpre, ih ht]
      simp

theorem all_isPrefixChar_ne_space {p : Str} (h : p.all isPrefixChar = true) :
    ∀ c ∈ p, c ≠ ' ' := by
  intro c hc
  exact isPrefixChar_ne_space (List.all_eq_true.mp h c hc)

theorem take_append_delim (p rest : Str) :
    (p ++ delim ++ rest).take p.length = p := by
  rw [List.append_assoc, List.take_append_of_le_length (Nat.le_refl _)]
  simp

theorem drop_append_delim (p rest : Str) :
    (p ++ delim ++ rest).drop (p.length + 3) = rest := by
  have h : (p ++ delim).length = p.length + 3 := by simp [delim]
  rw [← h, List.drop_left]

/-- Stripping one valid segment consumes one unit of fuel. -/
theorem cleanLoop_strip (fuel : Nat) (p rest : Str)
    (hp : p.all isPrefixChar = true) :
    cleanLoop (fuel + 1) (p ++ delim ++ rest) = cleanLoop fuel rest := by
  have hfind := findDelim_append_delim p rest (all_isPrefixChar_ne_space hp)
  simp only [cleanLoop, hfind, take_append_delim, hp, if_true, drop_append_delim]

/-- A string whose head segment is not strippable is left unchanged by the
loop, for any fuel. -/
theorem cleanLoop_of_not_headStrippable (fuel : Nat) (s : Str)
    (h : headStrippable s = false) : cleanLoop fuel s = s := by
  cases fuel with
  | zero => rfl
  | succ n =>
      unfold cleanLoop
      unfold headStrippable at h
      cases hf : findDelim s with
      | none => simp
      | some pos =>
          rw [hf] at h
          simp only [] at h
          simp [h]

theorem cleanAlbumPrefix_eq_cleanLoop (s : Str) :
    cleanAlbumPrefix s = cleanLoop 3 s := by
  unfold cleanAlbumPrefix
  split
  · subst s; rfl
  · rfl

/-! ### The generic property view (`TagLib::PropertyMap`) -/

/-- A `TagLib::PropertyMap`: keys mapped to ordered lists of string
values.  Modelled as an association list; lookups are key-based, so the
entry order is irrelevant to the engine's behavior. -/
abbrev PMap := List (Str × List Str)

/-- `PropertyMap::contains` / lookup: the value list stored under a key. -/
def pmFind : PMap → Str → Option (List Str)
  | [], _ => none
  | (k', v) :: rest, k => if k' = k then some v else pmFind rest k

/-- `properties.contains(key)`. -/
def pmContains (m : PMap) (k : Str) : Bool :=
  (pmFind m k).isSome

/-- `properties.replace(key, values)`: replace the value list stored under
a key, inserting the key when absent. -/
def pmReplace : PMap → Str → List Str → PMap
  | [], k, v => [(k, v)]
  | (k', v') :: rest, k, v =>
      if k' = k then (k, v) :: rest else (k', v') :: pmReplace rest k v

/-- `properties.erase(key)`. -/
def pmErase (m : PMap) (k : Str) : PMap :=
  m.filter (fun p => p.1 ≠ k)

/-- `std::toupper` over a whole string. -/
def strUpper (s : Str) : Str := s.map Char.toUpper

/-- `toLower` from `src/main.cpp` (lines 1137–1142). -/
def strLower (s : Str) : Str := s.map Char.toLower

/-! ### GenericTagEditor: `applyTagOperations` (lines 1999–2099) -/

/-- `TagMode` from `src/main.cpp` (line 1030). -/
inductive TagMode
  | SET
  | APPEND
  | PREPEND
deriving DecidableEq, Repr

/-- `TagOperation` from `src/main.cpp` (line 1037). -/
structure TagOperation where
  key : Str
  value : Str
  mode : TagMode
deriving DecidableEq, Repr

/-- Target-key resolution in `applyTagOperations`: the uppercase form when
present, else the exact requested key when present, else the uppercase
form by default. -/
def resolveKey (m : PMap) (k : Str) : Str :=
  let upperKey := strUpper k
  if pmContains m upperKey then upperKey
  else if pmContains m k then k
  else upperKey

/-- One iteration of the operation loop in `applyTagOperations`: SET
replaces the whole value list; APPEND concatenates onto the last existing
value (or behaves as SET); PREPEND concatenates onto the first existing
value (or behaves as SET). -/
def applyOp (m : PMap) (op : TagOperation) : PMap :=
  let targetKey := resolveKey m op.key
  match op.mode with
  | .SET => pmReplace m targetKey [op.value]
  | .APPEND =>
      if pmContains m targetKey then
        let values := (pmFind m targetKey).getD []
        match values with
        | [] => pmReplace m targetKey [op.value]
        | _ :: _ =>
            pmReplace m targetKey
              (values.dropLast ++ [values.getLastD [] ++ op.value])
      else pmReplace m targetKey [op.value]
  | .PREPEND =>
      if pmContains m targetKey then
        let values := (pmFind m targetKey).getD []
        match values with
        | [] => pmReplace m targetKey [op.value]
        | _ :: _ =>
            pmReplace m targetKey ((op.value ++ values.headD []) :: values.tail)
      else pmReplace m targetKey [op.value]

/-- The in-memory effect of `applyTagOperations` (lines 1999–2099): all
operations of a batch are applied to one property view before the single
`setProperties`/`save` commit. -/
def applyTagOperations (m : PMap) (ops : List TagOperation) : PMap :=
  ops.foldl applyOp m

/-! ### PMap lemmas -/

theorem pmFind_pmReplace_self (m : PMap) (k : Str) (v : List Str) :
    pmFind (pmReplace m k v) k = some v := by
  induction m with
  | nil => simp [pmReplace, pmFind]
  | cons p rest ih =>
      obtain ⟨k', v'⟩ := p
      by_cases h : k' = k
      · subst h; simp [pmReplace, pmFind]
      · simp [pmReplace, pmFind, h, ih]

theorem pmFind_pmReplace_ne (m : PMap) (k k2 : Str) (v : List Str)
    (h : k2 ≠ k) : pmFind (pmReplace m k v) k2 = pmFind m k2 := by
  induction m with
  | nil =>
      simp only [pmReplace, pmFind]
      rw [if_neg (fun he => h he.symm)]
  | cons p rest ih =>
      obtain ⟨k', v'⟩ := p
      by_cases hk : k' = k
      · subst hk
        simp only [pmReplace, if_pos rfl, pmFind]
        rw [if_neg (fun he => h he.symm), if_neg (fun he => h he.symm)]
      · by_cases hk2 : k' = k2
        · subst hk2; simp [pmReplace, hk, pmFind]
        · simp [pmReplace, hk, pmFind, hk2, ih]

/-! ### ID3v2 frames and tag state -/

/-- Picture type of an attached picture (`AttachedPictureFrame::Type`,
`FLAC::Picture::Type`). -/
inductive PicType
  | frontCover
  | otherPic
deriving DecidableEq, Repr

/-- An ID3v2 frame, as far as the engine distinguishes them:
text-identification frames (TBPM, TKEY, …), user-text TXXX frames with a
description, COMM comment frames, APIC picture frames, and anything
else. -/
inductive Frame
  | text (id : Str) (txt : Str)
  | txxx (descr : Str) (txt : Str)
  | comm (descr : Str) (lang : Str) (txt : Str)
  | apic (picType : PicType) (mime : Str) (data : List Nat)
  | otherFrame (id : Str)
deriving DecidableEq, Repr

/-- The four-character frame id used by `frameList`/`removeFrames`. -/
def frameId : Frame → Str
  | .text id _ => id
  | .txxx _ _ => "TXXX".toList
  | .comm _ _ _ => "COMM".toList
  | .apic _ _ _ => "APIC".toList
  | .otherFrame id => id

/-- Format-specific tag data behind the generic `TagLib::Tag` interface:
an ID3v2 frame list, a Xiph comment field map, or nothing further (any
other format, e.g. MP4). -/
inductive FormatSpec
  | id3 (frames : List Frame)
  | xiph (fields : List (Str × Str))
  | plain
deriving DecidableEq, Repr

/-- The tag state of an open file: the basic `TagLib::Tag` fields plus the
format-specific part. -/
structure TagState where
  album : Str
  artist : Str
  title : Str
  comment : Str
  genre : Str
  year : Nat
  track : Nat
  formatSpec : FormatSpec
deriving DecidableEq, Repr

/-! ### AnalysisTagWriter: `writeTags` (lines 1377–1568)

The float-to-text canonicalization of BPM and energy
(`setprecision(0) << round(bpm)`, `setprecision(2) << energy`) is
abstracted: the already-formatted strings are inputs, together with the
boolean result of the detection-floor test
`res.bpm < 0.1 && res.energy < 0.01`. -/

/-- Canonicalized analysis values consumed by `writeTags`.  `floorMet` is
the negation of `res.bpm < 0.1 && res.energy < 0.01`. -/
structure AnalysisStrings where
  bpmStr : Str
  energyStr : Str
  keyStr : Str
  floorMet : Bool
deriving DecidableEq, Repr

/-- `if (!id3->frameList(frameId).isEmpty()) id3->removeFrames(frameId);` -/
def removeFramesIfPresent (frames : List Frame) (id : Str) : List Frame :=
  if (frames.filter (fun fr => frameId fr == id)).isEmpty then frames
  else frames.filter (fun fr => !(frameId fr == id))

/-- Whether a frame is a TXXX user-text frame with description `ENERGY`. -/
def isEnergyTxxx : Frame → Bool
  | .txxx d _ => d == "ENERGY".toList
  | _ => false

/-- Whether a frame is a COMM comment frame with description `AMALYZER`. -/
def isAmalyzerComm : Frame → Bool
  | .comm d _ _ => d == "AMALYZER".toList
  | _ => false

/-- The ID3v2 branch of `writeTags` (lines 1455–1538): remove-then-insert
TBPM, TKEY, TXXX/ENERGY per requested kind, then always remove-then-insert
the COMM frame with description `AMALYZER`. -/
def id3WriteAnalysis (frames : List Frame) (tagsToWrite : List Str)
    (bpmStr energyStr keyStr commentStr : Str) : List Frame :=
  let f1 := if "bpm".toList ∈ tagsToWrite then
      removeFramesIfPresent frames "TBPM".toList ++ [Frame.text "TBPM".toList bpmStr]
    else frames
  let f2 := if "key".toList ∈ tagsToWrite then
      removeFramesIfPresent f1 "TKEY".toList ++ [Frame.text "TKEY".toList keyStr]
    else f1
  let f3 := if "energy".toList ∈ tagsToWrite then
      f2.filter (fun fr => !(isEnergyTxxx fr)) ++ [Frame.txxx "ENERGY".toList energyStr]
    else f2
  f3.filter (fun fr => !(isAmalyzerComm fr))
    ++ [Frame.comm "AMALYZER".toList "eng".toList commentStr]

/-- `Ogg::XiphComment::addField(key, value, replace=true)`: the values
stored under the key are replaced by the single new value. -/
def xiphAddField : List (Str × Str) → Str → Str → List (Str × Str)
  | [], k, v => [(k, v)]
  | (k', v') :: rest, k, v =>
      if k' = k then (k, v) :: rest else (k', v') :: xiphAddField rest k v

/-- The Xiph branch of `writeTags` (lines 1539–1553): set `BPM`,
`INITIALKEY`, `ENERGY` per requested kind, then always set `COMMENT`. -/
def xiphWriteAnalysis (fields : List (Str × Str)) (tagsToWrite : List Str)
    (bpmStr energyStr keyStr commentStr : Str) : List (Str × Str) :=
  let f1 := if "bpm".toList ∈ tagsToWrite then xiphAddField fields "BPM".toList bpmStr
    else fields
  let f2 := if "key".toList ∈ tagsToWrite then xiphAddField f1 "INITIALKEY".toList keyStr
    else f1
  let f3 := if "energy".toList ∈ tagsToWrite then xiphAddField f2 "ENERGY".toList energyStr
    else f2
  xiphAddField f3 "COMMENT".toList commentStr

/-- `writeTags` (lines 1377–1568), from the point where the file is open:
detection-floor gate, part collection in the fixed bpm/energy/key order,
comment-string construction, Album rewrite through `cleanAlbumPrefix`,
the generic `setComment`, and the format-specific mirror writes. -/
def writeTags (st : TagState) (a : AnalysisStrings) (tagsToWrite : List Str)
    (force : Bool) : TagState :=
  if tagsToWrite = [] ∨ a.floorMet = false then st
  else
    let parts :=
      (if "bpm".toList ∈ tagsToWrite then [a.bpmStr] else [])
        ++ (if "energy".toList ∈ tagsToWrite then [a.energyStr] else [])
        ++ (if "key".toList ∈ tagsToWrite then [a.keyStr] else [])
    if parts = [] then st
    else
      let commentRaw :=
        (if "bpm".toList ∈ tagsToWrite then "BPM: ".toList ++ a.bpmStr ++ delim else [])
          ++ (if "key".toList ∈ tagsToWrite then "Key: ".toList ++ a.keyStr ++ delim else [])
          ++ (if "energy".toList ∈ tagsToWrite then
                "Energy: ".toList ++ a.energyStr ++ delim else [])
      let commentStr :=
        if commentRaw.length > 3 then commentRaw.take (commentRaw.length - 3)
        else commentRaw
      let newPrefix := buildPrefix parts
      let finalAlbum :=
        if force then newPrefix
        else
          let cleaned := cleanAlbumPrefix st.album
          if cleaned = [] then newPrefix else newPrefix ++ delim ++ cleaned
      let st1 := { st with album := finalAlbum, comment := commentStr }
      match st.formatSpec with
      | FormatSpec.id3 frames =>
          let frames' :=
            id3WriteAnalysis frames tagsToWrite a.bpmStr a.energyStr a.keyStr commentStr
          { st1 with formatSpec := FormatSpec.id3 frames' }
      | FormatSpec.xiph fields =>
          let fields' :=
            xiphWriteAnalysis fields tagsToWrite a.bpmStr a.energyStr a.keyStr commentStr
          { st1 with formatSpec := FormatSpec.xiph fields' }
      | FormatSpec.plain => st1

/-! ### TagRemover: `removeTags` (lines 1833–1932) -/

/-- One iteration of the name loop in `removeTags`: erase the uppercase
key from the property view if present, else the exact key; otherwise fall
back to clearing a well-known basic field when the lowercased name matches
one. -/
def removeTagsStep (acc : PMap × TagState × Bool) (t : Str) :
    PMap × TagState × Bool :=
  let (properties, tag, modified) := acc
  let upperKey := strUpper t
  if pmContains properties upperKey then (pmErase properties upperKey, tag, true)
  else if pmContains properties t then (pmErase properties t, tag, true)
  else
    let lowerT := strLower t
    if lowerT = "artist".toList then (properties, { tag with artist := [] }, true)
    else if lowerT = "album".toList then (properties, { tag with album := [] }, true)
    else if lowerT = "title".toList then (properties, { tag with title := [] }, true)
    else if lowerT = "comment".toList then
      (properties, { tag with comment := [] }, true)
    else if lowerT = "genre".toList then (properties, { tag with genre := [] }, true)
    else if lowerT = "year".toList then (properties, { tag with year := 0 }, true)
    else if lowerT = "track".toList then (properties, { tag with track := 0 }, true)
    else (properties, tag, modified)

/-- `removeTags` (lines 1833–1932), from the point where the file is
open: the resulting property view, basic tag and `modified` flag.  When
`modified` is `false` the function neither calls `setProperties`/`save`
nor logs anything (the no-op log line is commented out in the source). -/
def removeTags (properties : PMap) (tag : TagState) (tags : List Str) :
    PMap × TagState × Bool :=
  tags.foldl removeTagsStep (properties, tag, false)

/-! ### CoverArtManager: `embedCover` (lines 1575–1723) and
`removeCover` (lines 1729–1826) -/

/-- `TagLib::MP4::CoverArt::Format`. -/
inductive MP4CoverFormat
  | jpeg
  | png
deriving DecidableEq, Repr

/-- An item of a `TagLib::MP4::Tag`: a cover-art list under `covr`, or
any other atom. -/
inductive MP4Item
  | covers (arts : List (MP4CoverFormat × List Nat))
  | otherItem
deriving DecidableEq, Repr

/-- A `TagLib::FLAC::Picture`. -/
structure FlacPicture where
  picType : PicType
  mime : Str
  data : List Nat
deriving DecidableEq, Repr

/-- `MP4::Tag::item` lookup. -/
def itemFind : List (Str × MP4Item) → Str → Option MP4Item
  | [], _ => none
  | (k', v) :: rest, k => if k' = k then some v else itemFind rest k

/-- `MP4::Tag::setItem`: replace or insert an item. -/
def itemReplace : List (Str × MP4Item) → Str → MP4Item → List (Str × MP4Item)
  | [], k, v => [(k, v)]
  | (k', v') :: rest, k, v =>
      if k' = k then (k, v) :: rest else (k', v') :: itemReplace rest k v

/-- `MP4::Tag::removeItem`. -/
def itemErase (items : List (Str × MP4Item)) (k : Str) : List (Str × MP4Item) :=
  items.filter (fun p => p.1 ≠ k)

/-- The concrete file variants `embedCover`/`removeCover` dispatch on via
`dynamic_cast`, with the state each branch touches. -/
inductive AudioFile
  | mp3 (hasID3v2 : Bool) (frames : List Frame)
  | mp4 (items : List (Str × MP4Item))
  | flac (pictures : List FlacPicture)
  | wav (hasID3v2 : Bool) (frames : List Frame)
  | aiff (hasTag : Bool) (frames : List Frame)
  | oggVorbis
deriving DecidableEq, Repr

/-- A `log(level, message)` call. -/
structure LogLine where
  level : Str
  msg : Str
deriving DecidableEq, Repr

/-- `log("SUCCESS", "Capa adicionada")`. -/
def coverAddedLine : LogLine :=
  ⟨"SUCCESS".toList, "Capa adicionada".toList⟩

/-- `log("WARNING", "Formato não suportado ou falha ao salvar")`: the
single line emitted both when no format branch applied and when a branch
applied but `save()` failed. -/
def coverWarnLine : LogLine :=
  ⟨"WARNING".toList, "Formato não suportado ou falha ao salvar".toList⟩

/-- `log("SUCCESS", "Capa removida")`. -/
def coverRemovedLine : LogLine :=
  ⟨"SUCCESS".toList, "Capa removida".toList⟩

/-- `embedCover` (lines 1575–1723), from the point where the audio file is
open and the image bytes are read.  `imagePath` drives the MIME/format
detection (`.png` suffix check, line 1601); `saveOk` is the result the
underlying `save()` call would return.  Returns the persisted file state
and the log line emitted. -/
def embedCover (f : AudioFile) (imagePath : Str) (imgData : List Nat)
    (saveOk : Bool) : AudioFile × LogLine :=
  let isPng := decide (imagePath.length > 4) &&
    (strLower (imagePath.drop (imagePath.length - 4)) == ".png".toList)
  let mimeType := if isPng then "image/png".toList else "image/jpeg".toList
  let mp4Format := if isPng then MP4CoverFormat.png else MP4CoverFormat.jpeg
  match f with
  | .mp3 hasTag frames =>
      if hasTag then
        let newFrames := frames.filter (fun fr => !(frameId fr == "APIC".toList))
          ++ [Frame.apic PicType.frontCover mimeType imgData]
        if saveOk then (.mp3 hasTag newFrames, coverAddedLine)
        else (.mp3 hasTag frames, coverWarnLine)
      else (f, coverWarnLine)
  | .mp4 items =>
      let items' := itemReplace items "covr".toList (MP4Item.covers [(mp4Format, imgData)])
      if saveOk then (.mp4 items', coverAddedLine) else (f, coverWarnLine)
  | .flac _ =>
      let pics' := [FlacPicture.mk PicType.frontCover mimeType imgData]
      if saveOk then (.flac pics', coverAddedLine) else (f, coverWarnLine)
  | .wav hasTag frames =>
      if hasTag then
        let newFrames := frames.filter (fun fr => !(frameId fr == "APIC".toList))
          ++ [Frame.apic PicType.frontCover mimeType imgData]
        if saveOk then (.wav hasTag newFrames, coverAddedLine)
        else (.wav hasTag frames, coverWarnLine)
      else (f, coverWarnLine)
  | .aiff hasTag frames =>
      if hasTag then
        let newFrames := frames.filter (fun fr => !(frameId fr == "APIC".toList))
          ++ [Frame.apic PicType.frontCover mimeType imgData]
        if saveOk then (.aiff hasTag newFrames, coverAddedLine)
        else (.aiff hasTag frames, coverWarnLine)
      else (f, coverWarnLine)
  | .oggVorbis =>
      -- no dynamic_cast matches a Vorbis-only file (lines 1705–1707), so
      -- `saved` stays false and the shared warning line is logged
      (f, coverWarnLine)

/-- `removeCover` (lines 1729–1826), from the point where the file is
open.  Returns the persisted file state and the log line emitted, if
any (no line is logged when nothing was saved). -/
def removeCover (f : AudioFile) (saveOk : Bool) : AudioFile × Option LogLine :=
  match f with
  | .mp3 hasTag frames =>
      if hasTag then
        let apics := frames.filter (fun fr => frameId fr == "APIC".toList)
        if apics.isEmpty then (f, none)
        else
          let newFrames := frames.filter (fun fr => !(frameId fr == "APIC".toList))
          if saveOk then (.mp3 hasTag newFrames, some coverRemovedLine)
          else (.mp3 hasTag frames, none)
      else (f, none)
  | .mp4 items =>
      -- `tag->removeItem("covr")` (line 1764) mutates only the in-memory MP4
      -- tag; this branch never assigns `saved = mp4File->save()`, so the
      -- removal is not persisted and no success line is logged
      let _inMemoryItems :=
        if (itemFind items "covr".toList).isSome then itemErase items "covr".toList
        else items
      (AudioFile.mp4 items, none)
  | .flac pics =>
      if pics.isEmpty then (f, none)
      else if saveOk then (.flac [], some coverRemovedLine) else (f, none)
  | .wav hasTag frames =>
      if hasTag then
        let apics := frames.filter (fun fr => frameId fr == "APIC".toList)
        if apics.isEmpty then (f, none)
        else
          let newFrames := frames.filter (fun fr => !(frameId fr == "APIC".toList))
          if saveOk then (.wav hasTag newFrames, some coverRemovedLine)
          else (.wav hasTag frames, none)
      else (f, none)
  | .aiff hasTag frames =>
      if hasTag then
        let apics := frames.filter (fun fr => frameId fr == "APIC".toList)
        if apics.isEmpty then (f, none)
        else
          let newFrames := frames.filter (fun fr => !(frameId fr == "APIC".toList))
          if saveOk then (.aiff hasTag newFrames, some coverRemovedLine)
          else (.aiff hasTag frames, none)
      else (f, none)
  | .oggVorbis => (f, none)

/-- The data of an APIC frame whose picture type is FrontCover. -/
def apicFrontData : Frame → Option (List Nat)
  | .apic PicType.frontCover _ d => some d
  | _ => none

/-- The byte blobs of all FrontCover pictures a file carries. -/
def frontCoverPics : AudioFile → List (List Nat)
  | .mp3 _ frames => frames.filterMap apicFrontData
  | .mp4 items =>
      match itemFind items "covr".toList with
      | some (MP4Item.covers arts) => arts.map Prod.snd
      | _ => []
  | .flac pics =>
      (pics.filter (fun p => p.picType == PicType.frontCover)).map FlacPicture.data
  | .wav _ frames => frames.filterMap apicFrontData
  | .aiff _ frames => frames.filterMap apicFrontData
  | .oggVorbis => []

/-! ### Further codec lemmas -/

theorem cleanLoop_isSuffix (fuel : Nat) (s : Str) : cleanLoop fuel s <:+ s := by
  induction fuel generalizing s with
  | zero => exact List.suffix_refl s
  | succ n ih =>
      unfold cleanLoop
      split
      · exact List.suffix_refl s
      · split
        · exact (ih _).trans (List.drop_suffix _ _)
        · exact List.suffix_refl s

/-- A string whose fuel runs out is returned unchanged once no strip
applies; used through `headStrippable`. -/
theorem cleanLoop_buildPrefix (fuel : Nat) (parts : List Str) (orig : Str)
    (hfuel : 1 ≤ fuel) (hlen : parts.length ≤ fuel)
    (hvalid : ∀ p ∈ parts, p.all isPrefixChar = true)
    (horig : headStrippable orig = false) :
    cleanLoop fuel (buildPrefix parts ++ delim ++ orig) = orig := by
  induction parts generalizing fuel with
  | nil =>
      obtain ⟨m, rfl⟩ := Nat.exists_eq_add_of_le hfuel
      rw [Nat.add_comm 1 m]
      have h := cleanLoop_strip m [] orig (by simp)
      simp only [List.nil_append] at h
      simp only [buildPrefix, List.nil_append]
      rw [h]
      exact cleanLoop_of_not_headStrippable m orig horig
  | cons p ps ih =>
      cases fuel with
      | zero => simp at hlen
      | succ m =>
          cases ps with
          | nil =>
              have hs := cleanLoop_strip m p orig (hvalid p (by simp))
              simp only [buildPrefix]
              rw [hs]
              exact cleanLoop_of_not_headStrippable m orig horig
          | cons q qs =>
              have hb : buildPrefix (p :: q :: qs) = p ++ delim ++ buildPrefix (q :: qs) :=
                rfl
              rw [hb]
              have hassoc :
                  (p ++ delim ++ buildPrefix (q :: qs)) ++ delim ++ orig
                    = p ++ delim ++ (buildPrefix (q :: qs) ++ delim ++ orig) := by
                simp [List.append_assoc]
              rw [hassoc, cleanLoop_strip m p _ (hvalid p (by simp))]
              have hlen' : (q :: qs).length ≤ m := by
                simp only [List.length_cons] at hlen ⊢
                omega
              have hfuel' : 1 ≤ m := le_trans (by simp) hlen'
              exact ih m hfuel' hlen' (fun x hx => hvalid x (List.mem_cons_of_mem p hx))

/-- Stripping exactly three leading valid segments exhausts the loop's
fuel and returns the rest verbatim. -/
theorem cleanLoop3_three_segments (s1 s2 s3 rest : Str)
    (h1 : s1.all isPrefixChar = true) (h2 : s2.all isPrefixChar = true)
    (h3 : s3.all isPrefixChar = true) :
    cleanLoop 3 (s1 ++ delim ++ (s2 ++ delim ++ (s3 ++ delim ++ rest))) = rest := by
  rw [show (3 : Nat) = 2 + 1 from rfl, cleanLoop_strip 2 s1 _ h1]
  rw [show (2 : Nat) = 1 + 1 from rfl, cleanLoop_strip 1 s2 _ h2]
  rw [show (1 : Nat) = 0 + 1 from rfl, cleanLoop_strip 0 s3 _ h3]
  rfl

theorem append_delim_ne_nil (p rest : Str) : p ++ delim ++ rest ≠ [] := by
  simp [delim]

/-! ### Claim C10 -/

/-- C10: `cleanAlbumPrefix` returns a contiguous trailing substring
(suffix) of its input — its only possible effect is deletion of a leading
portion — and it maps the empty string to the empty string. -/
theorem cleanAlbumPrefix_suffix_of_input :
    (∀ s : Str, cleanAlbumPrefix s <:+ s) ∧ cleanAlbumPrefix [] = [] := by
  constructor
  · intro s
    rw [cleanAlbumPrefix_eq_cleanLoop]
    exact cleanLoop_isSuffix 3 s
  · rfl

/-! ### Claim C6 -/

/-- C6: `cleanAlbumPrefix` removes at most 3 leading pipe-delimited
segments: on a string starting with four segments that each pass the
alphanumeric/`.`/`#` test, the fourth and everything after it are
preserved verbatim. -/
theorem cleanAlbumPrefix_strips_at_most_three (s1 s2 s3 s4 rest : Str)
    (h1 : s1.all isPrefixChar = true) (h2 : s2.all isPrefixChar = true)
    (h3 : s3.all isPrefixChar = true) (h4 : s4.all isPrefixChar = true) :
    cleanAlbumPrefix (s1 ++ delim ++ (s2 ++ delim ++ (s3 ++ delim ++ (s4 ++ delim ++ rest))))
      = s4 ++ delim ++ rest := by
  rw [cleanAlbumPrefix_eq_cleanLoop]
  exact cleanLoop3_three_segments s1 s2 s3 (s4 ++ delim ++ rest) h1 h2 h3

/-- Witness for C6 at `"120 | 0.5 | 8A | 99 | My Album"`. -/
theorem cleanAlbumPrefix_strips_at_most_three_witness :
    cleanAlbumPrefix ("120".toList ++ delim ++ ("0.5".toList ++ delim ++
        ("8A".toList ++ delim ++ ("99".toList ++ delim ++ "My Album".toList))))
      = "99".toList ++ delim ++ "My Album".toList :=
  cleanAlbumPrefix_strips_at_most_three "120".toList "0.5".toList "8A".toList
    "99".toList "My Album".toList (by decide) (by decide) (by decide) (by decide)

/-! ### Claim C5 -/

/-- C5 (counterexample to the claim as stated): with the unrestricted
parts list `["1","2","3","4"]` and `original = "Hello World"` — which does
not begin with any valid pipe-segment — the round trip strips only three
of the four built segments and does not return `original`. -/
theorem strip_build_roundtrip_fails_unrestricted :
    headStrippable "Hello World".toList = false ∧
    cleanAlbumPrefix
        (buildPrefix ["1".toList, "2".toList, "3".toList, "4".toList]
          ++ delim ++ "Hello World".toList)
      ≠ "Hello World".toList := by
  constructor
  · decide
  · decide

/-- C5 (amended): for every list of **at most 3** parts **each consisting
only of alphanumeric/`.`/`#` characters**, and every `original` that does
not begin with a valid pipe-segment, stripping prefixes from
`buildPrefix(parts) ++ " | " ++ original` returns exactly `original`. -/
theorem strip_build_roundtrip (parts : List Str) (orig : Str)
    (hlen : parts.length ≤ 3)
    (hvalid : ∀ p ∈ parts, p.all isPrefixChar = true)
    (horig : headStrippable orig = false) :
    cleanAlbumPrefix (buildPrefix parts ++ delim ++ orig) = orig := by
  rw [cleanAlbumPrefix_eq_cleanLoop]
  exact cleanLoop_buildPrefix 3 parts orig (by norm_num) hlen hvalid horig

/-- Witness for C5 at `parts = ["128","0.73","8A"]`,
`original = "Greatest Hits"`. -/
theorem strip_build_roundtrip_witness :
    cleanAlbumPrefix
        (buildPrefix ["128".toList, "0.73".toList, "8A".toList]
          ++ delim ++ "Greatest Hits".toList)
      = "Greatest Hits".toList :=
  strip_build_roundtrip ["128".toList, "0.73".toList, "8A".toList]
    "Greatest Hits".toList (by decide) (by decide) (by decide)

/-! ### Claim C1 -/

/-- The Album field produced by `writeTags` with `force=false` when all
three of bpm, energy, key are requested and the detection floor is met. -/
theorem writeTags_album_all3 (st : TagState) (a : AnalysisStrings) (tags : List Str)
    (hfloor : a.floorMet = true)
    (hb : "bpm".toList ∈ tags) (he : "energy".toList ∈ tags)
    (hk : "key".toList ∈ tags) :
    (writeTags st a tags false).album =
      (if cleanAlbumPrefix st.album = []
       then buildPrefix [a.bpmStr, a.energyStr, a.keyStr]
       else buildPrefix [a.bpmStr, a.energyStr, a.keyStr] ++ delim
              ++ cleanAlbumPrefix st.album) := by
  have hne : tags ≠ [] := List.ne_nil_of_mem hb
  unfold writeTags
  rw [if_neg (by simp [hne, hfloor])]
  simp only [hb, he, hk, if_true, List.cons_append, List.nil_append]
  rw [if_neg (by simp)]
  cases st.formatSpec <;> simp

/-- Stripping the freshly written three-part prefix recovers the stripped
remainder it was prepended to. -/
theorem clean_album_after_write (b e k c : Str)
    (hb : b.all isPrefixChar = true) (he : e.all isPrefixChar = true)
    (hk : k.all isPrefixChar = true) :
    cleanAlbumPrefix (buildPrefix [b, e, k] ++ delim ++ c) = c := by
  have harr : buildPrefix [b, e, k] ++ delim ++ c
      = b ++ delim ++ (e ++ delim ++ (k ++ delim ++ c)) := by
    simp [buildPrefix, List.append_assoc]
  rw [harr, cleanAlbumPrefix_eq_cleanLoop]
  exact cleanLoop3_three_segments b e k c hb he hk

/-- C1 (counterexample to the claim as stated): on a file whose Album is
empty, with the detection floor met and the full subset requested, the
second identical `force=false` write does not reproduce the first one's
Album: the trailing `"8A"` of `"128 | 0.73 | 8A"` has no `" | "`
delimiter after it, survives the strip, and is duplicated. -/
theorem writeTags_twice_empty_album_not_idempotent :
    (⟨"128".toList, "0.73".toList, "8A".toList, true⟩ : AnalysisStrings).floorMet
        = true ∧
    (writeTags
        (writeTags ⟨[], [], [], [], [], 0, 0, FormatSpec.plain⟩
          ⟨"128".toList, "0.73".toList, "8A".toList, true⟩
          ["bpm".toList, "energy".toList, "key".toList] false)
        ⟨"128".toList, "0.73".toList, "8A".toList, true⟩
        ["bpm".toList, "energy".toList, "key".toList] false).album
      ≠ (writeTags ⟨[], [], [], [], [], 0, 0, FormatSpec.plain⟩
          ⟨"128".toList, "0.73".toList, "8A".toList, true⟩
          ["bpm".toList, "energy".toList, "key".toList] false).album := by
  constructor
  · rfl
  · decide

/-- C1 (amended): with the detection floor met, **all three** of bpm,
energy and key requested, each canonical value string consisting only of
alphanumeric/`.`/`#` characters, and a nonempty stripped remainder of the
original Album, running the analysis-tag write twice with `force=false`
yields the same final Album string after the second run as after the
first: the prefix written by the first run is stripped by
`cleanAlbumPrefix` before the new identical prefix is prepended. -/
theorem writeTags_album_idempotent_of_parts_valid (st : TagState)
    (a : AnalysisStrings) (tags : List Str)
    (hfloor : a.floorMet = true)
    (hb : "bpm".toList ∈ tags) (he : "energy".toList ∈ tags)
    (hk : "key".toList ∈ tags)
    (hv1 : a.bpmStr.all isPrefixChar = true)
    (hv2 : a.energyStr.all isPrefixChar = true)
    (hv3 : a.keyStr.all isPrefixChar = true)
    (hclean : cleanAlbumPrefix st.album ≠ []) :
    (writeTags (writeTags st a tags false) a tags false).album
      = (writeTags st a tags false).album := by
  have h1 := writeTags_album_all3 st a tags hfloor hb he hk
  rw [if_neg hclean] at h1
  have h2 := writeTags_album_all3 (writeTags st a tags false) a tags hfloor hb he hk
  rw [h1, clean_album_after_write a.bpmStr a.energyStr a.keyStr _ hv1 hv2 hv3,
    if_neg hclean] at h2
  rw [h2, h1]

/-- Witness for C1 at Album `"Greatest Hits"`, values 128 / 0.73 / 8A. -/
theorem writeTags_album_idempotent_witness :
    (⟨"128".toList, "0.73".toList, "8A".toList, true⟩ : AnalysisStrings).floorMet
        = true ∧
    cleanAlbumPrefix ("Greatest Hits".toList) ≠ [] ∧
    (writeTags
        (writeTags ⟨"Greatest Hits".toList, [], [], [], [], 0, 0, FormatSpec.plain⟩
          ⟨"128".toList, "0.73".toList, "8A".toList, true⟩
          ["bpm".toList, "energy".toList, "key".toList] false)
        ⟨"128".toList, "0.73".toList, "8A".toList, true⟩
        ["bpm".toList, "energy".toList, "key".toList] false).album
      = (writeTags ⟨"Greatest Hits".toList, [], [], [], [], 0, 0, FormatSpec.plain⟩
          ⟨"128".toList, "0.73".toList, "8A".toList, true⟩
          ["bpm".toList, "energy".toList, "key".toList] false).album :=
  ⟨rfl, by decide,
    writeTags_album_idempotent_of_parts_valid
      ⟨"Greatest Hits".toList, [], [], [], [], 0, 0, FormatSpec.plain⟩
      ⟨"128".toList, "0.73".toList, "8A".toList, true⟩
      ["bpm".toList, "energy".toList, "key".toList]
      rfl (by decide) (by decide) (by decide)
      (by decide) (by decide) (by decide) (by decide)⟩

/-! ### Claim C4 -/

/-- C4 (counterexample to the claim as stated): on a file of a format
that is neither ID3v2 nor Xiph (`FormatSpec.plain`, e.g. MP4), the
analysis-tag write does not change only the Album field: the generic
Comment field is overwritten too (`tag->setComment(commentStr)`,
line 1451, runs for every format). -/
theorem writeTags_plain_changes_comment :
    (writeTags ⟨[], [], [], "orig".toList, [], 0, 0, FormatSpec.plain⟩
        ⟨"128".toList, "0.73".toList, "8A".toList, true⟩
        ["bpm".toList] false).comment
      ≠ "orig".toList := by decide

/-- C4 (amended): on a file of a format variant that is neither ID3v2 nor
a Xiph comment container, the analysis-tag write changes only the Album
and the generic Comment fields: artist, title, genre, year, track and the
format-specific part are untouched, and no mirror fields exist to be
written. -/
theorem writeTags_plain_only_album_and_comment (al ar ti co ge : Str)
    (y tr : Nat) (a : AnalysisStrings) (tags : List Str) (force : Bool) :
    (writeTags ⟨al, ar, ti, co, ge, y, tr, FormatSpec.plain⟩ a tags force).artist = ar ∧
    (writeTags ⟨al, ar, ti, co, ge, y, tr, FormatSpec.plain⟩ a tags force).title = ti ∧
    (writeTags ⟨al, ar, ti, co, ge, y, tr, FormatSpec.plain⟩ a tags force).genre = ge ∧
    (writeTags ⟨al, ar, ti, co, ge, y, tr, FormatSpec.plain⟩ a tags force).year = y ∧
    (writeTags ⟨al, ar, ti, co, ge, y, tr, FormatSpec.plain⟩ a tags force).track = tr ∧
    (writeTags ⟨al, ar, ti, co, ge, y, tr, FormatSpec.plain⟩ a tags force).formatSpec
      = FormatSpec.plain := by
  unfold writeTags
  repeat' split
  all_goals simp_all

/-! ### Claim C8 -/

/-- Effect of a single APPEND on a resolved key holding a non-empty value
list: string concatenation onto the last element. -/
theorem applyOp_append_eq (props : PMap) (k v : Str) (l : List Str)
    (hres : pmFind props (resolveKey props k) = some l) (hne : l ≠ []) :
    applyOp props ⟨k, v, TagMode.APPEND⟩
      = pmReplace props (resolveKey props k) (l.dropLast ++ [l.getLastD [] ++ v]) := by
  have hcont : pmContains props (resolveKey props k) = true := by
    simp [pmContains, hres]
  cases l with
  | nil => exact absurd rfl hne
  | cons x xs =>
      simp only [applyOp, hcont, if_true, hres, Option.getD_some]

/-- Effect of a single PREPEND on a resolved key holding a non-empty
value list: string concatenation onto the first element. -/
theorem applyOp_prepend_eq (props : PMap) (k v : Str) (l : List Str)
    (hres : pmFind props (resolveKey props k) = some l) (hne : l ≠ []) :
    applyOp props ⟨k, v, TagMode.PREPEND⟩
      = pmReplace props (resolveKey props k) ((v ++ l.headD []) :: l.tail) := by
  have hcont : pmContains props (resolveKey props k) = true := by
    simp [pmContains, hres]
  cases l with
  | nil => exact absurd rfl hne
  | cons x xs =>
      simp only [applyOp, hcont, if_true, hres, Option.getD_some]

/-- Replacing the value list under the resolved key does not change which
key a later operation on the same requested key resolves to. -/
theorem resolveKey_pmReplace_self (props : PMap) (k : Str) (l l' : List Str)
    (hres : pmFind props (resolveKey props k) = some l) :
    resolveKey (pmReplace props (resolveKey props k) l') k = resolveKey props k := by
  by_cases hu : pmContains props (strUpper k) = true
  · have hrk : resolveKey props k = strUpper k := by
      unfold resolveKey; rw [if_pos hu]
    have hc : pmContains (pmReplace props (strUpper k) l') (strUpper k) = true := by
      unfold pmContains; rw [pmFind_pmReplace_self]; rfl
    rw [hrk]
    unfold resolveKey
    rw [if_pos hc]
  · by_cases hk : pmContains props k = true
    · have hrk : resolveKey props k = k := by
        unfold resolveKey; rw [if_neg hu, if_pos hk]
      have hne2 : strUpper k ≠ k := by
        intro he; rw [he] at hu; exact hu hk
      have hc1 : ¬(pmContains (pmReplace props k l') (strUpper k) = true) := by
        unfold pmContains
        rw [pmFind_pmReplace_ne props k (strUpper k) l' hne2]
        exact hu
      have hc2 : pmContains (pmReplace props k l') k = true := by
        unfold pmContains; rw [pmFind_pmReplace_self]; rfl
      rw [hrk]
      unfold resolveKey
      rw [if_neg hc1, if_pos hc2]
    · exfalso
      have hrk : resolveKey props k = strUpper k := by
        unfold resolveKey; rw [if_neg hu, if_neg hk]
      rw [hrk] at hres
      apply hu
      unfold pmContains
      rw [hres]
      rfl

/-- C8: on a resolved property key holding a non-empty value list, APPEND
concatenates the operation's value onto the last element, PREPEND
concatenates onto the first element, and the two compose on the same
in-memory property view within one batch. -/
theorem applyTagOperations_append_prepend_compose (props : PMap) (k v1 v2 : Str)
    (l : List Str)
    (hres : pmFind props (resolveKey props k) = some l) (hne : l ≠ []) :
    pmFind (applyOp props ⟨k, v1, TagMode.APPEND⟩) (resolveKey props k)
        = some (l.dropLast ++ [l.getLastD [] ++ v1]) ∧
    pmFind (applyOp props ⟨k, v2, TagMode.PREPEND⟩) (resolveKey props k)
        = some ((v2 ++ l.headD []) :: l.tail) ∧
    pmFind (applyTagOperations props
          [⟨k, v1, TagMode.APPEND⟩, ⟨k, v2, TagMode.PREPEND⟩]) (resolveKey props k)
        = some ((v2 ++ (l.dropLast ++ [l.getLastD [] ++ v1]).headD [])
            :: (l.dropLast ++ [l.getLastD [] ++ v1]).tail) := by
  refine ⟨?_, ?_, ?_⟩
  · rw [applyOp_append_eq props k v1 l hres hne]
    exact pmFind_pmReplace_self _ _ _
  · rw [applyOp_prepend_eq props k v2 l hres hne]
    exact pmFind_pmReplace_self _ _ _
  · show pmFind (applyOp (applyOp props ⟨k, v1, TagMode.APPEND⟩)
        ⟨k, v2, TagMode.PREPEND⟩) (resolveKey props k) = _
    rw [applyOp_append_eq props k v1 l hres hne]
    have hstable := resolveKey_pmReplace_self props k l
      (l.dropLast ++ [l.getLastD [] ++ v1]) hres
    have hfind1 : pmFind (pmReplace props (resolveKey props k)
          (l.dropLast ++ [l.getLastD [] ++ v1]))
        (resolveKey (pmReplace props (resolveKey props k)
          (l.dropLast ++ [l.getLastD [] ++ v1])) k)
        = some (l.dropLast ++ [l.getLastD [] ++ v1]) := by
      rw [hstable]; exact pmFind_pmReplace_self _ _ _
    have hne1 : l.dropLast ++ [l.getLastD [] ++ v1] ≠ [] := by simp
    rw [applyOp_prepend_eq _ k v2 _ hfind1 hne1, hstable]
    exact pmFind_pmReplace_self _ _ _

/-- Witness for C8: existing title `"Song"`, APPEND `" (Remix)"` then
PREPEND `"[Intro] "` in one batch yields `"[Intro] Song (Remix)"`. -/
theorem applyTagOperations_append_prepend_compose_witness :
    pmFind
        (applyTagOperations [("TITLE".toList, ["Song".toList])]
          [⟨"title".toList, " (Remix)".toList, TagMode.APPEND⟩,
           ⟨"title".toList, "[Intro] ".toList, TagMode.PREPEND⟩])
        ("TITLE".toList)
      = some ["[Intro] Song (Remix)".toList] :=
  (applyTagOperations_append_prepend_compose
    [("TITLE".toList, ["Song".toList])] "title".toList " (Remix)".toList
    "[Intro] ".toList ["Song".toList] (by decide) (by decide)).2.2

/-! ### Claim C9 -/

/-- The well-known field names cleared by the fallback branch of
`removeTags`, compared case-insensitively. -/
def wellKnownNames : List Str :=
  ["artist".toList, "album".toList, "title".toList, "comment".toList,
   "genre".toList, "year".toList, "track".toList]

theorem removeTags_foldl_fixed (props : PMap) (tag : TagState) (m : Bool)
    (names : List Str)
    (h : ∀ t ∈ names, pmContains props (strUpper t) = false ∧
        pmContains props t = false ∧ strLower t ∉ wellKnownNames) :
    names.foldl removeTagsStep (props, tag, m) = (props, tag, m) := by
  induction names with
  | nil => rfl
  | cons t ts ih =>
      obtain ⟨h1, h2, h3⟩ := h t (List.mem_cons_self t ts)
      have n1 : ¬(strLower t = "artist".toList) := fun he => h3 (by rw [he]; decide)
      have n2 : ¬(strLower t = "album".toList) := fun he => h3 (by rw [he]; decide)
      have n3 : ¬(strLower t = "title".toList) := fun he => h3 (by rw [he]; decide)
      have n4 : ¬(strLower t = "comment".toList) := fun he => h3 (by rw [he]; decide)
      have n5 : ¬(strLower t = "genre".toList) := fun he => h3 (by rw [he]; decide)
      have n6 : ¬(strLower t = "year".toList) := fun he => h3 (by rw [he]; decide)
      have n7 : ¬(strLower t = "track".toList) := fun he => h3 (by rw [he]; decide)
      have hstep : removeTagsStep (props, tag, m) t = (props, tag, m) := by
        unfold removeTagsStep
        dsimp only
        rw [if_neg (by simp [h1]), if_neg (by simp [h2]), if_neg n1, if_neg n2,
          if_neg n3, if_neg n4, if_neg n5, if_neg n6, if_neg n7]
      rw [List.foldl_cons, hstep]
      exact ih (fun x hx => h x (List.mem_cons_of_mem t hx))

/-- C9: when no requested name resolves to an existing generic property
key (neither uppercase nor exact form) and none matches a well-known
field name case-insensitively, `removeTags` leaves the property view and
the basic tag unchanged and its `modified` flag stays `false`, so no
save is performed and nothing is reported. -/
theorem removeTags_noop_when_nothing_matches (props : PMap) (tag : TagState)
    (names : List Str)
    (h : ∀ t ∈ names, pmContains props (strUpper t) = false ∧
        pmContains props t = false ∧ strLower t ∉ wellKnownNames) :
    removeTags props tag names = (props, tag, false) :=
  removeTags_foldl_fixed props tag false names h

/-- Witness for C9: removing `"foobar"` from a file whose property view
holds only `GENRE` is a complete no-op. -/
theorem removeTags_noop_when_nothing_matches_witness :
    (∀ t ∈ ["foobar".toList],
        pmContains [("GENRE".toList, ["Rock".toList])] (strUpper t) = false ∧
        pmContains [("GENRE".toList, ["Rock".toList])] t = false ∧
        strLower t ∉ wellKnownNames) ∧
    removeTags [("GENRE".toList, ["Rock".toList])]
        ⟨"a".toList, "b".toList, "c".toList, "d".toList, "e".toList, 1, 2,
          FormatSpec.plain⟩ ["foobar".toList]
      = ([("GENRE".toList, ["Rock".toList])],
          ⟨"a".toList, "b".toList, "c".toList, "d".toList, "e".toList, 1, 2,
            FormatSpec.plain⟩, false) :=
  ⟨by decide,
    removeTags_noop_when_nothing_matches [("GENRE".toList, ["Rock".toList])]
      ⟨"a".toList, "b".toList, "c".toList, "d".toList, "e".toList, 1, 2,
        FormatSpec.plain⟩ ["foobar".toList] (by decide)⟩

/-! ### Cover-art lemmas -/

theorem apicFrontData_eq_none (fr : Frame)
    (h : (frameId fr == "APIC".toList) = false) : apicFrontData fr = none := by
  cases fr with
  | apic t m d => simp [frameId] at h
  | text id txt => rfl
  | txxx d t => rfl
  | comm a b c => rfl
  | otherFrame id => rfl

theorem filterMap_apicFrontData_filter (fs : List Frame) :
    (fs.filter (fun fr => !(frameId fr == "APIC".toList))).filterMap apicFrontData
      = [] := by
  rw [List.filterMap_eq_nil_iff]
  intro fr hfr
  have hm := List.mem_filter.mp hfr
  exact apicFrontData_eq_none fr (by simpa using hm.2)

theorem itemFind_itemReplace_self (items : List (Str × MP4Item)) (k : Str)
    (v : MP4Item) : itemFind (itemReplace items k v) k = some v := by
  induction items with
  | nil => simp [itemReplace, itemFind]
  | cons p rest ih =>
      obtain ⟨k', v'⟩ := p
      by_cases h : k' = k
      · subst h; simp [itemReplace, itemFind]
      · simp [itemReplace, itemFind, h, ih]

theorem frontCoverPics_embed_mp3 (fs : List Frame) (p : Str) (i : List Nat) :
    frontCoverPics (embedCover (AudioFile.mp3 true fs) p i true).1 = [i] := by
  simp [embedCover, frontCoverPics, List.filterMap_append, apicFrontData]
  intro a ha hne
  exact apicFrontData_eq_none a (beq_eq_false_iff_ne.mpr hne)

theorem frontCoverPics_embed_mp4 (items : List (Str × MP4Item)) (p : Str)
    (i : List Nat) :
    frontCoverPics (embedCover (AudioFile.mp4 items) p i true).1 = [i] := by
  simp [embedCover, frontCoverPics, itemFind_itemReplace_self]

theorem frontCoverPics_embed_flac (pics : List FlacPicture) (p : Str)
    (i : List Nat) :
    frontCoverPics (embedCover (AudioFile.flac pics) p i true).1 = [i] := by
  simp [embedCover, frontCoverPics]

theorem frontCoverPics_embed_wav (fs : List Frame) (p : Str) (i : List Nat) :
    frontCoverPics (embedCover (AudioFile.wav true fs) p i true).1 = [i] := by
  simp [embedCover, frontCoverPics, List.filterMap_append, apicFrontData]
  intro a ha hne
  exact apicFrontData_eq_none a (beq_eq_false_iff_ne.mpr hne)

theorem frontCoverPics_embed_aiff (fs : List Frame) (p : Str) (i : List Nat) :
    frontCoverPics (embedCover (AudioFile.aiff true fs) p i true).1 = [i] := by
  simp [embedCover, frontCoverPics, List.filterMap_append, apicFrontData]
  intro a ha hne
  exact apicFrontData_eq_none a (beq_eq_false_iff_ne.mpr hne)

/-! ### Claim C3 -/

/-- C3: on every supported variant, a cover embed removes all existing
front-cover pictures and inserts exactly one FrontCover picture with the
embedded bytes; hence after two successive embeds with two different
images exactly one FrontCover picture exists, containing the second
image's bytes. -/
theorem embedCover_front_cover_singularity (fs1 fs2 fs3 : List Frame)
    (items : List (Str × MP4Item)) (pics : List FlacPicture)
    (p1 p2 : Str) (i1 i2 : List Nat) :
    frontCoverPics (embedCover (AudioFile.mp3 true fs1) p1 i1 true).1 = [i1] ∧
    frontCoverPics (embedCover (AudioFile.mp4 items) p1 i1 true).1 = [i1] ∧
    frontCoverPics (embedCover (AudioFile.flac pics) p1 i1 true).1 = [i1] ∧
    frontCoverPics (embedCover (AudioFile.wav true fs2) p1 i1 true).1 = [i1] ∧
    frontCoverPics (embedCover (AudioFile.aiff true fs3) p1 i1 true).1 = [i1] ∧
    frontCoverPics
        (embedCover (embedCover (AudioFile.mp3 true fs1) p1 i1 true).1 p2 i2 true).1
      = [i2] ∧
    frontCoverPics
        (embedCover (embedCover (AudioFile.mp4 items) p1 i1 true).1 p2 i2 true).1
      = [i2] ∧
    frontCoverPics
        (embedCover (embedCover (AudioFile.flac pics) p1 i1 true).1 p2 i2 true).1
      = [i2] ∧
    frontCoverPics
        (embedCover (embedCover (AudioFile.wav true fs2) p1 i1 true).1 p2 i2 true).1
      = [i2] ∧
    frontCoverPics
        (embedCover (embedCover (AudioFile.aiff true fs3) p1 i1 true).1 p2 i2 true).1
      = [i2] := by
  refine ⟨frontCoverPics_embed_mp3 fs1 p1 i1, frontCoverPics_embed_mp4 items p1 i1,
    frontCoverPics_embed_flac pics p1 i1, frontCoverPics_embed_wav fs2 p1 i1,
    frontCoverPics_embed_aiff fs3 p1 i1, ?_, ?_, ?_, ?_, ?_⟩
  · obtain ⟨fs', hfs⟩ : ∃ fs',
        (embedCover (AudioFile.mp3 true fs1) p1 i1 true).1 = AudioFile.mp3 true fs' :=
      ⟨_, rfl⟩
    rw [hfs]; exact frontCoverPics_embed_mp3 fs' p2 i2
  · obtain ⟨its', hits⟩ : ∃ its',
        (embedCover (AudioFile.mp4 items) p1 i1 true).1 = AudioFile.mp4 its' :=
      ⟨_, rfl⟩
    rw [hits]; exact frontCoverPics_embed_mp4 its' p2 i2
  · obtain ⟨pics', hpics⟩ : ∃ pics',
        (embedCover (AudioFile.flac pics) p1 i1 true).1 = AudioFile.flac pics' :=
      ⟨_, rfl⟩
    rw [hpics]; exact frontCoverPics_embed_flac pics' p2 i2
  · obtain ⟨fs', hfs⟩ : ∃ fs',
        (embedCover (AudioFile.wav true fs2) p1 i1 true).1 = AudioFile.wav true fs' :=
      ⟨_, rfl⟩
    rw [hfs]; exact frontCoverPics_embed_wav fs' p2 i2
  · obtain ⟨fs', hfs⟩ : ∃ fs',
        (embedCover (AudioFile.aiff true fs3) p1 i1 true).1 = AudioFile.aiff true fs' :=
      ⟨_, rfl⟩
    rw [hfs]; exact frontCoverPics_embed_aiff fs' p2 i2

/-! ### Claim C2 -/

/-- C2 (evaluation at the failing input): on an MP4 file carrying one
front cover, `removeCover` leaves the persisted file unchanged — the MP4
branch erases the `covr` item only from the in-memory tag and never calls
`save()` — so one FrontCover picture remains where the claim requires
zero, and nothing is logged. -/
theorem removeCover_mp4_cover_persists :
    removeCover
        (AudioFile.mp4 [("covr".toList, MP4Item.covers [(MP4CoverFormat.jpeg, [1, 2, 3])])])
        true
      = (AudioFile.mp4 [("covr".toList, MP4Item.covers [(MP4CoverFormat.jpeg, [1, 2, 3])])],
          none) ∧
    frontCoverPics
        (removeCover
          (AudioFile.mp4 [("covr".toList, MP4Item.covers [(MP4CoverFormat.jpeg, [1, 2, 3])])])
          true).1
      = [[1, 2, 3]] := by
  constructor
  · rfl
  · rfl

/-! ### Claim C7 -/

/-- C7 (counterexample to the claim as stated): the outcome reported for
a cover embed on an OGG/Vorbis-only file is the very same
`WARNING "Formato não suportado ou falha ao salvar"` line that a save
failure on a supported format (here MP3) produces — the unsupported
format is not distinguishable from a save failure. -/
theorem embedCover_ogg_warning_equals_save_failure_warning :
    (embedCover AudioFile.oggVorbis "x.png".toList [9] true).2
      = (embedCover (AudioFile.mp3 true []) "x.png".toList [9] false).2 := by
  decide

/-- C7 (amended): a cover embed attempted on an OGG/Vorbis-only file
leaves the file unchanged and reports a warning outcome, but that outcome
is the shared unsupported-or-save-failure warning line, not an outcome
distinct from a save failure. -/
theorem embedCover_ogg_unchanged_with_warning (p : Str) (i : List Nat)
    (saveOk : Bool) :
    embedCover AudioFile.oggVorbis p i saveOk = (AudioFile.oggVorbis, coverWarnLine) :=
  rfl

end Amalyzer
